import Mathlib

/-!
Verification of the mpio/mio GPIO core: a shallow embedding of the
character-device GPIO line controller (`mpio/gpio.py`) and the legacy
sysfs asynchronous notifier (`mio/gpio.py`), with theorems settling the
specified properties of enumeration, lookup, handle lifecycle, edge
polling, the constructor retry loop, and the async polling thread.
-/
set_option maxRecDepth 4000

namespace Mio

/-! ## `mio/gpio.py`: `AsyncPoll` (async notifier thread)

`GPIO.poll` in `mio/gpio.py` returns `None` on timeout and otherwise the
value read back from the line (`self.get()`, a `bool`).  So the result a
loop iteration of `AsyncPoll.run` sees is an `Option Bool`.  Python
truthiness on that value: `None` and `False` are falsy, `True` is truthy.
-/
/-- Python truthiness of the `mio` `GPIO.poll` result (`None` or a `bool`). -/
def truthy : Option Bool → Bool
  | none => false
  | some b => b

/-- A recorded invocation of the user callback.  `AsyncPoll.run` calls
`self.callback()` with no argument; the spec speaks of `callback(result)`,
so an invocation records whether an argument was passed and which. -/
inductive CbCall
  | noArg
  | withArg (v : Bool)
  deriving DecidableEq, Repr

/-- One iteration of the loop body of `AsyncPoll.run`
(`if self.gpio.poll(self.edge, 0.1): self.callback()`): the callback is
invoked, with no argument, exactly when the poll result is truthy. -/
def runIterationCalls (pollResult : Option Bool) : List CbCall :=
  if truthy pollResult then [CbCall.noArg] else []

/-- The calls made by `AsyncPoll.run` across a finite run of the loop whose
successive `poll` results are `pollResults`. -/
def runLoopCalls (pollResults : List (Option Bool)) : List CbCall :=
  pollResults.foldr (fun r acc => runIterationCalls r ++ acc) []

/-- Modelled from the spec: the claimed behaviour of the loop body — on any
non-timeout result invoke `callback(result)` with the result as argument,
on a timeout invoke nothing.  Written from the spec sentence, to be
compared against `runIterationCalls`, which is the code. -/
def runIterationCallsClaimed (pollResult : Option Bool) : List CbCall :=
  match pollResult with
  | none => []
  | some b => [CbCall.withArg b]

/-! ### Interleaving semantics for `AsyncPoll.start`/`stop` (claim C1)

`AsyncPoll.run` is `self.running = True; while self.running: if
self.gpio.poll(self.edge, 0.1): self.callback()`, and `AsyncPoll.stop` is
the single assignment `self.running = False` — there is no `join`.  We
model the thread as a program counter over the labelled points of `run`,
and a scheduler as a list of actions interleaving thread steps with calls
to `stop()` from the foreground thread. -/
/-- Program counter of the `AsyncPoll.run` thread. -/
inductive ThreadPC
  | atSetRunning  -- about to execute `self.running = True`
  | atCheck       -- about to test `while self.running`
  | atPoll        -- about to call `self.gpio.poll(self.edge, 0.1)`
  | atCallback    -- poll returned truthy; about to call `self.callback()`
  | done          -- loop exited, thread finished
  deriving DecidableEq, Repr

/-- Shared state between the `AsyncPoll` thread and the foreground thread:
the `running` flag and the thread's position in `run`. -/
structure NotifState where
  running : Bool
  pc : ThreadPC
  deriving DecidableEq, Repr

/-- Initial state: the thread has been spawned but has not yet executed
`self.running = True` (`__init__` sets `self.running = False`). -/
def notifInit : NotifState := ⟨false, ThreadPC.atSetRunning⟩

/-- A scheduler action: one step of the background thread (with the poll
result the environment supplies when the step is the `poll` call), or the
foreground thread calling `stop()`. -/
inductive Act
  | threadStep (pollResult : Option Bool)
  | stopCall
  deriving DecidableEq, Repr

/-- Observable events: the thread invoking the user callback, and `stop()`
returning to its caller. -/
inductive Ev
  | callbackInvoked
  | stopReturned
  deriving DecidableEq, Repr

/-- One step of the background thread executing `AsyncPoll.run`.  The poll
result is consumed only at `atPoll`. -/
def threadStep (s : NotifState) (pollResult : Option Bool) :
    NotifState × List Ev :=
  match s.pc with
  | ThreadPC.atSetRunning => (⟨true, ThreadPC.atCheck⟩, [])
  | ThreadPC.atCheck =>
      if s.running then (⟨s.running, ThreadPC.atPoll⟩, [])
      else (⟨s.running, ThreadPC.done⟩, [])
  | ThreadPC.atPoll =>
      if truthy pollResult then (⟨s.running, ThreadPC.atCallback⟩, [])
      else (⟨s.running, ThreadPC.atCheck⟩, [])
  | ThreadPC.atCallback => (⟨s.running, ThreadPC.atCheck⟩, [Ev.callbackInvoked])
  | ThreadPC.done => (s, [])

/-- `AsyncPoll.stop`: the single write `self.running = False`.  It does not
wait for the thread; it returns immediately (hence the `stopReturned`
event in the same step). -/
def stopStep (s : NotifState) : NotifState × List Ev :=
  ({ s with running := false }, [Ev.stopReturned])

/-- Execute a schedule of interleaved actions from a state, collecting the
event trace. -/
def notifExecFrom (s : NotifState) : List Act → List Ev
  | [] => []
  | Act.threadStep r :: rest =>
      let (s2, evs) := threadStep s r
      evs ++ notifExecFrom s2 rest
  | Act.stopCall :: rest =>
      let (s2, evs) := stopStep s
      evs ++ notifExecFrom s2 rest

/-- Execute a schedule from the initial (just-spawned) state. -/
def notifExec (sched : List Act) : List Ev :=
  notifExecFrom notifInit sched

/-- Whether a `callbackInvoked` event occurs anywhere after a
`stopReturned` event in the trace. -/
def cbAfterStop : List Ev → Bool
  | [] => false
  | Ev.stopReturned :: rest => rest.contains Ev.callbackInvoked || cbAfterStop rest
  | Ev.callbackInvoked :: rest => cbAfterStop rest

/-- Number of callback invocations in a trace. -/
def cbCount (tr : List Ev) : Nat := tr.count Ev.callbackInvoked

/-- A schedule realizing "start, then immediately stop": the thread sets
its flag (this is the point `async_poll` busy-waits for before returning),
enters the loop, polls and sees a truthy result; the foreground thread
then calls `stop()`, which returns at once; the thread, already past its
flag check, still invokes the callback. -/
def raceSched : List Act :=
  [Act.threadStep none, Act.threadStep none, Act.threadStep (some true),
   Act.stopCall, Act.threadStep none]

/-- An upper bound on the callback invocations the thread can still make
once the run flag is down: one, when it is between its flag check and the
callback. -/
def cbPotential (s : NotifState) : Nat :=
  match s.pc with
  | ThreadPC.atPoll => 1
  | ThreadPC.atCallback => 1
  | _ => 0

end Mio

namespace Mpio

/-! ## `mpio/gpio.py`: chip & line resolver

A controller device node is modelled by its name and the kernel's
per-line metadata: `lineNames` lists the line-info name for each offset,
so the chip-info line count is `lineNames.length`.  The kernel reports
line names as `bytes` (ctypes `c_char` arrays); callers may pass `str`,
so name comparison happens between tagged Python values. -/
/-- A Python value used as a pin name: `str` or `bytes`. -/
inductive PyVal
  | pystr (s : String)
  | pybytes (s : String)
  deriving DecidableEq, Repr

/-- Python `==` on name values: a `bytes` value never equals a `str`. -/
def pyEq : PyVal → PyVal → Bool
  | PyVal.pystr a, PyVal.pystr b => a == b
  | PyVal.pybytes a, PyVal.pybytes b => a == b
  | _, _ => false

/-- One GPIO controller: device-node name and the kernel line names, in
offset order (`lineNames.length` is the chip-info line count). -/
structure Chip where
  devname : String
  lineNames : List String
  deriving DecidableEq, Repr

/-- Lexicographic code-point comparison of character lists (the order
Python string comparison uses). -/
def strLtB : List Char → List Char → Bool
  | [], [] => false
  | [], _ :: _ => true
  | _ :: _, [] => false
  | a :: as, b :: bs =>
      if a.toNat < b.toNat then true
      else if b.toNat < a.toNat then false
      else strLtB as bs

/-- Python string less-than, by code points. -/
def strLt (a b : String) : Bool := strLtB a.data b.data

/-- Insert a chip into a devname-sorted list (insertion step of the
`sorted(glob.glob(...))` ordering). -/
def insertChip (c : Chip) : List Chip → List Chip
  | [] => [c]
  | d :: rest =>
      if strLt c.devname d.devname then c :: d :: rest else d :: insertChip c rest

/-- `sorted(glob.glob(_GPIO_ROOT + "*"))`: the controller walk order is
lexicographic by device-node name. -/
def sortChips : List Chip → List Chip
  | [] => []
  | c :: rest => insertChip c (sortChips rest)

/-- A file-descriptor event on a controller device node. -/
inductive FdOp
  | opn (dev : String)
  | cls (dev : String)
  deriving DecidableEq, Repr

/-- Whether an fd event is an open. -/
def FdOp.isOpn : FdOp → Bool
  | FdOp.opn _ => true
  | FdOp.cls _ => false

/-- Number of opens in a trace. -/
def countOpn (tr : List FdOp) : Nat := (tr.filter FdOp.isOpn).length

/-- Number of closes in a trace. -/
def countCls (tr : List FdOp) : Nat := (tr.filter fun o => !o.isOpn).length

/-- The balanced open/close trace of walking a list of chips to completion
(each controller's fd opened, used, and closed). -/
def pairTrace : List Chip → List FdOp
  | [] => []
  | c :: rest => FdOp.opn c.devname :: FdOp.cls c.devname :: pairTrace rest

/-- Inner loop of `_pin_lookup`: scan one chip's `range(info.lines)` line
offsets, testing the running global `offset` against `pin`; returns the
match (if any) and the updated global offset. -/
def pinScanChip (pin : Nat) (devname : String) (offset lineOffset remaining : Nat) :
    Option (String × Nat) × Nat :=
  match remaining with
  | 0 => (none, offset)
  | r + 1 =>
      if offset == pin then (some (devname, lineOffset), offset)
      else pinScanChip pin devname (offset + 1) (lineOffset + 1) r

/-- Outer loop of `_pin_lookup` over the sorted controller walk, with its
fd trace: each visited chip is opened; a chip fully scanned without a
match is closed; a `return` from inside the scan skips the close. -/
def pinLookupGo (pin : Nat) (offset : Nat) :
    List Chip → Option (String × Nat) × List FdOp
  | [] => (none, [])
  | c :: rest =>
      match pinScanChip pin c.devname offset 0 c.lineNames.length with
      | (some r, _) => (some r, [FdOp.opn c.devname])
      | (none, offset2) =>
          let (res, tr) := pinLookupGo pin offset2 rest
          (res, FdOp.opn c.devname :: FdOp.cls c.devname :: tr)

/-- `GPIO._pin_lookup`: map a flat pin index to (controller device name,
line offset), walking controllers in sorted order. -/
def pinLookup (pin : Nat) (cs : List Chip) : Option (String × Nat) × List FdOp :=
  pinLookupGo pin 0 (sortChips cs)

/-- Inner loop of `_name_lookup`: issue a line-info query per offset and
compare the kernel-reported `bytes` name against the caller's value. -/
def nameScanChip (name : PyVal) (offset : Nat) : List String → Option Nat × Nat
  | [] => (none, offset)
  | ln :: rest =>
      if pyEq (PyVal.pybytes ln) name then (some offset, offset)
      else nameScanChip name (offset + 1) rest

/-- Outer loop of `_name_lookup` with its fd trace (same open/close shape
as `_pin_lookup`). -/
def nameLookupGo (name : PyVal) (offset : Nat) :
    List Chip → Option Nat × List FdOp
  | [] => (none, [])
  | c :: rest =>
      match nameScanChip name offset c.lineNames with
      | (some p, _) => (some p, [FdOp.opn c.devname])
      | (none, offset2) =>
          let (res, tr) := nameLookupGo name offset2 rest
          (res, FdOp.opn c.devname :: FdOp.cls c.devname :: tr)

/-- `GPIO._name_lookup`: map a pin name to its flat pin index.  `None`
input short-circuits to `None`. -/
def nameLookup (name : Option PyVal) (cs : List Chip) : Option Nat × List FdOp :=
  match name with
  | none => (none, [])
  | some n => nameLookupGo n 0 (sortChips cs)

/-- The kernel's line-info name for (device node, offset): the named
chip's line list at that offset. -/
def lineInfoName (cs : List Chip) (devname : String) (lineOffset : Nat) : String :=
  match cs.find? (fun c => c.devname == devname) with
  | some c => c.lineNames.getD lineOffset ""
  | none => ""

/-- `GPIO.pin_to_name`: resolve the pin, then open the owning controller
read-only, query the line info, close, and return the `bytes` name. -/
def pinToName (pin : Nat) (cs : List Chip) : Option PyVal × List FdOp :=
  match pinLookup pin cs with
  | (some (devname, lineOffset), tr) =>
      (some (PyVal.pybytes (lineInfoName cs devname lineOffset)),
       tr ++ [FdOp.opn devname, FdOp.cls devname])
  | (none, tr) => (none, tr)

/-- Inner loop of `GPIO.enumerate`: append one sequential pin id per line. -/
def enumScanChip (pin : Nat) : Nat → List Nat
  | 0 => []
  | r + 1 => pin :: enumScanChip (pin + 1) r

/-- Outer loop of `GPIO.enumerate` with its fd trace: every controller fd
is opened and closed. -/
def enumerateGo (pin : Nat) : List Chip → List Nat × List FdOp
  | [] => ([], [])
  | c :: rest =>
      let (res, tr) := enumerateGo (pin + c.lineNames.length) rest
      (enumScanChip pin c.lineNames.length ++ res,
       FdOp.opn c.devname :: FdOp.cls c.devname :: tr)

/-- `GPIO.enumerate`: the ordered list of flat pin ids on the system. -/
def enumerate (cs : List Chip) : List Nat × List FdOp :=
  enumerateGo 0 (sortChips cs)

/-- Total line count across a list of chips. -/
def totalLines (cs : List Chip) : Nat :=
  (cs.map (fun c => c.lineNames.length)).sum

/-- The concatenated (controller, offset) enumeration of a chip walk. -/
def flatLines : List Chip → List (String × Nat)
  | [] => []
  | c :: rest =>
      (List.range c.lineNames.length).map (fun i => (c.devname, i)) ++ flatLines rest

/-- The concatenated line-name enumeration of a chip walk. -/
def enumNames : List Chip → List String
  | [] => []
  | c :: rest => c.lineNames ++ enumNames rest

/-! ### Resolver lemmas -/
/-- First index in a list of line names satisfying a test. -/
def firstIdx (p : String → Bool) : List String → Option Nat
  | [] => none
  | a :: l => if p a then some 0 else (firstIdx p l).map (fun i => i + 1)

/-! ## `mpio/gpio.py`: GPIO line-handle operations

`GPIO.get`/`set`/`poll` each acquire a short-lived secondary fd via an
ioctl on the controller fd, use it, and close it in a `finally`.  After
`close()` the controller fd is `None`, and `fcntl.ioctl(None, ...)`
raises a `TypeError`.  The secondary-fd lifecycle is recorded as an event
trace. -/
/-- Python exceptions raised by the GPIO methods. -/
inductive PyErr
  | typeError (msg : String)
  | valueError (msg : String)
  | runtimeError (msg : String)
  | osError (errno : Nat)
  deriving DecidableEq, Repr

/-- A Python scalar passed to `set` (`bool` or `int` accepted). -/
inductive PyScalar
  | pybool (b : Bool)
  | pyint (n : Int)
  | pynone
  deriving DecidableEq, Repr

/-- `isinstance(value, (bool, int))`. -/
def isBoolOrInt : PyScalar → Bool
  | PyScalar.pybool _ => true
  | PyScalar.pyint _ => true
  | PyScalar.pynone => false

/-- Python `bool(value)`. -/
def pyBool : PyScalar → Bool
  | PyScalar.pybool b => b
  | PyScalar.pyint n => n != 0
  | PyScalar.pynone => false

/-- GPIO object state: the controller fd (`None` after `close()`), the
configured mode string, and the resolved line offset.  `close()` leaves
`_mode` and `_line_offset` untouched. -/
structure GPIOState where
  fd : Option Nat
  mode : String
  lineOffset : Nat
  deriving DecidableEq, Repr

/-- `GPIO.close`: closes and clears the controller fd; no-op when already
closed. -/
def close (st : GPIOState) : GPIOState :=
  match st.fd with
  | some _ => { st with fd := none }
  | none => st

/-- The line-handle request struct the code fills in (`lineoffsets[0]`,
`flags`, `default_values[0]`, `consumer_label`, `lines`). -/
structure HandleReq where
  lineoffset0 : Nat
  flags : Nat
  defaultValue0 : Nat
  consumerLabel : String
  lines : Nat
  deriving DecidableEq, Repr

/-- `_GPIOHANDLE_REQUEST_INPUT`. -/
def REQUEST_INPUT : Nat := 1

/-- `_GPIOHANDLE_REQUEST_OUTPUT`. -/
def REQUEST_OUTPUT : Nat := 2

/-- The line-event request struct (`lineoffset`, `handleflags`,
`eventflags`, `consumer_label`). -/
structure EventReq where
  lineoffset : Nat
  handleflags : Nat
  eventflags : Nat
  consumerLabel : String
  deriving DecidableEq, Repr

/-- Outcome of the readiness wait. -/
inductive WaitOutcome
  | ready
  | timedOut (waited : Bool)
  | blocksForever
  deriving DecidableEq, Repr

/-- Model of the OS readiness-wait primitive
(`select.epoll().poll(timeout)`) on the event fd, given the queue of edge
events pending on the line: returns ready at once when an event is
pending; with `timeout` zero and nothing pending returns empty without
waiting; with a negative `timeout` and nothing (ever) pending it blocks
indefinitely; with a positive `timeout` it waits the timeout out. -/
def epollWait (timeout : Int) (pending : List Nat) : WaitOutcome :=
  if pending.isEmpty = false then WaitOutcome.ready
  else if timeout == 0 then WaitOutcome.timedOut false
  else if timeout < 0 then WaitOutcome.blocksForever
  else WaitOutcome.timedOut true

/-- Observable secondary-fd events of one `get`/`set`/`poll` call. -/
inductive GpioEv
  | acquireHandle (req : HandleReq)
  | getValues
  | setValues (v : Nat)
  | acquireEvent (req : EventReq)
  | waited (w : WaitOutcome)
  | readEvent (id : Nat)
  | closeFd
  deriving DecidableEq, Repr

/-- `GPIO.get`: mode check, single-line input-handle acquisition,
get-values ioctl, close of the handle fd in `finally`.  `lineValue` is
the electrical state the kernel reports. -/
def get (st : GPIOState) (lineValue : Bool) :
    Except PyErr Bool × List GpioEv :=
  if st.mode != "in" then
    (Except.error (PyErr.runtimeError "Cannot get value on pin that is not input mode."), [])
  else
    match st.fd with
    | none => (Except.error (PyErr.typeError "an integer is required"), [])
    | some _ =>
        let req : HandleReq := ⟨st.lineOffset, REQUEST_INPUT, 0, "MPIO", 1⟩
        (Except.ok lineValue,
         [GpioEv.acquireHandle req, GpioEv.getValues, GpioEv.closeFd])

/-- `GPIO.set`: type check, mode check, single-line output-handle
acquisition with `default_values[0] = 0`, set-values ioctl with
`data[0] = int(bool(value))`, close of the handle fd in `finally`. -/
def set (st : GPIOState) (value : PyScalar) :
    Except PyErr Unit × List GpioEv :=
  if !(isBoolOrInt value) then
    (Except.error (PyErr.typeError "value must be a bool or int."), [])
  else if st.mode != "out" then
    (Except.error (PyErr.runtimeError "Cannot set value on pin that is not output mode."), [])
  else
    match st.fd with
    | none => (Except.error (PyErr.typeError "an integer is required"), [])
    | some _ =>
        let req : HandleReq := ⟨st.lineOffset, REQUEST_OUTPUT, 0, "MPIO", 1⟩
        (Except.ok (),
         [GpioEv.acquireHandle req,
          GpioEv.setValues (if pyBool value then 1 else 0), GpioEv.closeFd])

/-- Result of `GPIO.poll`: a returned value, or a wait that never wakes
(negative timeout, no event). -/
inductive PollRet
  | ret (r : Except PyErr (Option String))
  | blocks
  deriving Repr

/-- The `eventflags` the code selects for an edge filter. -/
def eventflagsFor (edge : String) : Nat :=
  if edge == "both" then 3 else if edge == "rising" then 1 else 2

/-- Classification of one event record by its `id`
(`0x01` rising, `0x02` falling, otherwise `None`). -/
def classifyEvent (id : Nat) : Option String :=
  if id == 1 then some "rising" else if id == 2 then some "falling" else none

/-- `GPIO.poll`: edge validation, event-fd acquisition via ioctl on the
controller fd, readiness wait, read of exactly one event record on
wakeup, close of the event fd in `finally` on every returning path.
`timeout` is modelled as an integer (the code also admits floats; only
its sign and zeroness matter here).  `pending` is the queue of edge-event
ids on the line. -/
def poll (st : GPIOState) (edge : String) (timeout : Int) (pending : List Nat) :
    PollRet × List GpioEv :=
  if !(edge == "rising" || edge == "falling" || edge == "both") then
    (PollRet.ret (Except.error (PyErr.valueError "Invalid edge value.")), [])
  else
    match st.fd with
    | none => (PollRet.ret (Except.error (PyErr.typeError "an integer is required")), [])
    | some _ =>
        let req : EventReq := ⟨st.lineOffset, 0, eventflagsFor edge, "MPIO"⟩
        match epollWait timeout pending with
        | WaitOutcome.ready =>
            match pending with
            | [] =>
                (PollRet.ret (Except.ok none),
                 [GpioEv.acquireEvent req, GpioEv.waited WaitOutcome.ready,
                  GpioEv.closeFd])
            | id :: _ =>
                (PollRet.ret (Except.ok (classifyEvent id)),
                 [GpioEv.acquireEvent req, GpioEv.waited WaitOutcome.ready,
                  GpioEv.readEvent id, GpioEv.closeFd])
        | WaitOutcome.timedOut w =>
            (PollRet.ret (Except.ok none),
             [GpioEv.acquireEvent req, GpioEv.waited (WaitOutcome.timedOut w),
              GpioEv.closeFd])
        | WaitOutcome.blocksForever =>
            (PollRet.blocks,
             [GpioEv.acquireEvent req, GpioEv.waited WaitOutcome.blocksForever])

/-! ## `GPIO.__init__`: device-node open retry loop and pin resolution -/
/-- Outcome the environment assigns to the k-th `os.open` attempt. -/
inductive OpenOutcome
  | ok (fd : Nat)
  | err (errno : Nat)
  deriving DecidableEq, Repr

/-- The retry loop of `GPIO.__init__`: `retries` starts at 0 and is
incremented before each attempt; a failure is re-raised unless its errno
is 13 and no more than 20 retries have happened, in which case the loop
sleeps 0.1 s and tries again.  Returns the result together with the
number of attempts made. -/
def openRetryGo (outcomes : Nat → OpenOutcome) (retries : Nat) :
    Except Nat Nat × Nat :=
  match outcomes (retries + 1) with
  | OpenOutcome.ok fd => (Except.ok fd, retries + 1)
  | OpenOutcome.err e =>
      if h : e ≠ 13 ∨ retries + 1 > 20 then (Except.error e, retries + 1)
      else openRetryGo outcomes (retries + 1)
termination_by 20 - retries
decreasing_by
  push_neg at h
  omega

/-- The whole retry loop, from `retries = 0`. -/
def openRetry (outcomes : Nat → OpenOutcome) : Except Nat Nat × Nat :=
  openRetryGo outcomes 0

/-- The pin argument of `GPIO.__init__`. -/
inductive PinArg
  | int (pin : Nat)
  | str (name : String)
  | other
  deriving DecidableEq, Repr

/-- The pin-resolution prefix of `GPIO.__init__`: type check on `pin`,
mode check, then name lookup for a `str` pin (the looked-up value is the
caller's `str`), then `_pin_lookup` on the resulting index.  Returns the
resolved (device name, line offset, pin index). -/
def initResolve (arg : PinArg) (mode : String) (cs : List Chip) :
    Except PyErr (String × Nat × Nat) :=
  if !(match arg with
       | PinArg.int _ => true
       | PinArg.str _ => true
       | PinArg.other => false) then
    Except.error (PyErr.typeError "Invalid pin type, must be int.")
  else if !(mode == "in" || mode == "out") then
    Except.error (PyErr.valueError "Invalid mode value.")
  else
    match arg with
    | PinArg.other => Except.error (PyErr.typeError "Invalid pin type, must be int.")
    | PinArg.str s =>
        match (nameLookup (some (PyVal.pystr s)) cs).fst with
        | none => Except.error (PyErr.runtimeError "Unknown pin name")
        | some pin =>
            match (pinLookup pin cs).fst with
            | none => Except.error (PyErr.valueError "Invalid pin number.")
            | some (devname, lineOffset) => Except.ok (devname, lineOffset, pin)
    | PinArg.int pin =>
        match (pinLookup pin cs).fst with
        | none => Except.error (PyErr.valueError "Invalid pin number.")
        | some (devname, lineOffset) => Except.ok (devname, lineOffset, pin)

/-- Modelled from the spec: the spec's dedicated `UseAfterClose` error
kind, identified by the message "use after close"; the code raises no
such error, which this predicate makes checkable. -/
def isUseAfterClose : PyErr → Bool
  | PyErr.typeError m => m == "use after close"
  | PyErr.valueError m => m == "use after close"
  | PyErr.runtimeError m => m == "use after close"
  | PyErr.osError _ => false

/-- The spec scenario controller "A": 32 lines. -/
def chipA : Chip := ⟨"A", List.replicate 32 ""⟩

/-- The spec scenario controller "B": 16 lines. -/
def chipB : Chip := ⟨"B", List.replicate 16 ""⟩

/-- The spec scenario system: "A" then "B" in lexicographic order. -/
def sysAB : List Chip := [chipA, chipB]

/-- A system with one controller and two lines bearing the same name. -/
def dupSys : List Chip := [⟨"gpiochip0", ["x", "x"]⟩]

/-- A system with one controller and two distinctly named lines. -/
def twoLineSys : List Chip := [⟨"gpiochip0", ["a", "b"]⟩]

end Mpio

namespace Mio

theorem cbCount_le_potential :
    ∀ (sched : List Act) (s : NotifState), s.running = false →
    s.pc ≠ ThreadPC.atSetRunning →
    cbCount (notifExecFrom s sched) ≤ cbPotential s := by
  intro sched
  induction sched with
  | nil => intro s _ _; simp [notifExecFrom, cbCount]
  | cons a rest ih =>
      intro s hrun hpc
      obtain ⟨run, pc⟩ := s
      simp only at hrun
      subst hrun
      cases a with
      | stopCall =>
          rw [notifExecFrom]
          have h2 := ih ⟨false, pc⟩ rfl hpc
          simpa [cbCount, stopStep, List.count_append, cbPotential] using h2
      | threadStep r =>
          rw [notifExecFrom]
          cases pc with
          | atSetRunning => exact absurd rfl hpc
          | atCheck =>
              have h2 := ih ⟨false, ThreadPC.done⟩ rfl (by simp)
              simpa [cbCount, threadStep, List.count_append, cbPotential] using h2
          | atPoll =>
              by_cases ht : truthy r
              · have h2 := ih ⟨false, ThreadPC.atCallback⟩ rfl (by simp)
                simpa [cbCount, threadStep, ht, List.count_append, cbPotential] using h2
              · have h2 := ih ⟨false, ThreadPC.atCheck⟩ rfl (by simp)
                have h3 : cbPotential ⟨false, ThreadPC.atCheck⟩ = 0 := rfl
                simp only [threadStep, ht, Bool.false_eq_true, if_false, cbCount,
                  List.count_append] at *
                simp [cbPotential]
                omega
          | atCallback =>
              have h2 := ih ⟨false, ThreadPC.atCheck⟩ rfl (by simp)
              have h3 : cbPotential ⟨false, ThreadPC.atCheck⟩ = 0 := rfl
              rw [h3] at h2
              simp only [threadStep, cbCount, List.count_append] at *
              simp [cbPotential, List.count_cons]
              omega
          | done =>
              have h2 := ih ⟨false, ThreadPC.done⟩ rfl (by simp)
              simpa [cbCount, threadStep, List.count_append, cbPotential] using h2

end Mio

namespace Mpio

theorem pinScanChip_spec (pin : Nat) (devname : String) :
    ∀ remaining offset lineOffset,
    pinScanChip pin devname offset lineOffset remaining =
      if offset ≤ pin ∧ pin < offset + remaining then
        (some (devname, lineOffset + (pin - offset)), pin)
      else (none, offset + remaining) := by
  intro remaining
  induction remaining with
  | zero =>
      intro offset lineOffset
      rw [pinScanChip, if_neg (by omega)]
      rfl
  | succ r ih =>
      intro offset lineOffset
      by_cases h : offset = pin
      · subst h
        rw [pinScanChip, if_pos (by simp), if_pos (by omega)]
        simp
      · have hne : (offset == pin) = false := by simp [h]
        rw [pinScanChip, if_neg (by simp [hne]), ih]
        by_cases h2 : offset + 1 ≤ pin ∧ pin < offset + 1 + r
        · rw [if_pos h2, if_pos (show offset ≤ pin ∧ pin < offset + (r + 1) by omega)]
          have ha : lineOffset + 1 + (pin - (offset + 1)) = lineOffset + (pin - offset) := by
            omega
          rw [ha]
        · rw [if_neg h2, if_neg (show ¬ (offset ≤ pin ∧ pin < offset + (r + 1)) by omega)]
          have ha : offset + 1 + r = offset + (r + 1) := by omega
          rw [ha]

theorem flatLines_length : ∀ cs, (flatLines cs).length = totalLines cs := by
  intro cs
  induction cs with
  | nil => simp [flatLines, totalLines]
  | cons c rest ih => simp [flatLines, totalLines, ih, List.sum_cons] at *

theorem pinLookupGo_fst (pin : Nat) :
    ∀ (cs : List Chip) (offset : Nat), offset ≤ pin →
    (pinLookupGo pin offset cs).fst = (flatLines cs)[pin - offset]? := by
  intro cs
  induction cs with
  | nil => intro offset _; simp [pinLookupGo, flatLines]
  | cons c rest ih =>
      intro offset hle
      rw [pinLookupGo, pinScanChip_spec]
      by_cases h : offset ≤ pin ∧ pin < offset + c.lineNames.length
      · rw [if_pos h]
        have hlt : pin - offset < ((List.range c.lineNames.length).map
            (fun i => (c.devname, i))).length := by
          simp [List.length_map, List.length_range]; omega
        rw [flatLines, List.getElem?_append, if_pos hlt]
        simp [List.getElem?_range (show pin - offset < c.lineNames.length by omega)]
      · rw [if_neg h]
        have h2 : offset + c.lineNames.length ≤ pin := by omega
        rw [flatLines, List.getElem?_append,
          if_neg (show ¬ pin - offset < ((List.range c.lineNames.length).map
            (fun i => (c.devname, i))).length by simp; omega)]
        simp only [List.length_map, List.length_range]
        have harith : pin - offset - c.lineNames.length = pin - (offset + c.lineNames.length) := by
          omega
        rw [harith]
        exact ih (offset + c.lineNames.length) h2

theorem pinLookup_fst (pin : Nat) (cs : List Chip) :
    (pinLookup pin cs).fst = (flatLines (sortChips cs))[pin]? := by
  have := pinLookupGo_fst pin (sortChips cs) 0 (Nat.zero_le pin)
  simpa [pinLookup] using this

theorem pinLookup_fst_none (pin : Nat) (cs : List Chip)
    (h : totalLines (sortChips cs) ≤ pin) :
    (pinLookup pin cs).fst = none := by
  rw [pinLookup_fst]
  exact List.getElem?_eq_none (by rw [flatLines_length]; exact h)

theorem nameScanChip_spec (name : PyVal) :
    ∀ (lns : List String) (offset : Nat),
    nameScanChip name offset lns =
      match firstIdx (fun ln => pyEq (PyVal.pybytes ln) name) lns with
      | some i => (some (offset + i), offset + i)
      | none => (none, offset + lns.length) := by
  intro lns
  induction lns with
  | nil => intro offset; simp [nameScanChip, firstIdx]
  | cons ln rest ih =>
      intro offset
      rw [nameScanChip, firstIdx]
      by_cases h : pyEq (PyVal.pybytes ln) name
      · simp [h]
      · simp only [h, Bool.false_eq_true, if_false, ih (offset + 1)]
        cases hfi : firstIdx (fun l => pyEq (PyVal.pybytes l) name) rest with
        | none => simp [List.length_cons]; omega
        | some i => simp; omega

theorem firstIdx_append (p : String → Bool) :
    ∀ (xs ys : List String),
    firstIdx p (xs ++ ys) =
      match firstIdx p xs with
      | some i => some i
      | none => (firstIdx p ys).map (fun i => i + xs.length) := by
  intro xs ys
  induction xs with
  | nil =>
      simp only [List.nil_append, firstIdx]
      cases firstIdx p ys <;> simp
  | cons a rest ih =>
      rw [List.cons_append, firstIdx, firstIdx]
      by_cases h : p a
      · simp [h]
      · simp only [h, Bool.false_eq_true, if_false, ih]
        cases hr : firstIdx p rest with
        | some i => simp
        | none =>
            cases hy : firstIdx p ys with
            | none => simp
            | some j => simp [List.length_cons]; omega

theorem nameLookupGo_fst (name : PyVal) :
    ∀ (cs : List Chip) (offset : Nat),
    (nameLookupGo name offset cs).fst =
      (firstIdx (fun ln => pyEq (PyVal.pybytes ln) name) (enumNames cs)).map
        (fun i => offset + i) := by
  intro cs
  induction cs with
  | nil => intro offset; simp [nameLookupGo, enumNames, firstIdx]
  | cons c rest ih =>
      intro offset
      rw [nameLookupGo, nameScanChip_spec, enumNames, firstIdx_append]
      cases hfi : firstIdx (fun ln => pyEq (PyVal.pybytes ln) name) c.lineNames with
      | some i => simp
      | none =>
          simp only
          rw [ih (offset + c.lineNames.length)]
          cases hr : firstIdx (fun ln => pyEq (PyVal.pybytes ln) name) (enumNames rest) with
          | none => simp
          | some j => simp; omega

theorem countOpn_append (a b : List FdOp) : countOpn (a ++ b) = countOpn a + countOpn b := by
  simp [countOpn, List.filter_append]

theorem countCls_append (a b : List FdOp) : countCls (a ++ b) = countCls a + countCls b := by
  simp [countCls, List.filter_append]

theorem countOpn_pairTrace : ∀ cs, countOpn (pairTrace cs) = cs.length := by
  intro cs
  induction cs with
  | nil => rfl
  | cons c rest ih => simp [pairTrace, countOpn, List.filter_cons, FdOp.isOpn] at *; omega

theorem countCls_pairTrace : ∀ cs, countCls (pairTrace cs) = cs.length := by
  intro cs
  induction cs with
  | nil => rfl
  | cons c rest ih => simp [pairTrace, countCls, List.filter_cons, FdOp.isOpn] at *; omega

theorem pinLookupGo_trace_none (pin : Nat) :
    ∀ (cs : List Chip) (offset : Nat), (pinLookupGo pin offset cs).fst = none →
    (pinLookupGo pin offset cs).snd = pairTrace cs := by
  intro cs
  induction cs with
  | nil => intro offset _; rfl
  | cons c rest ih =>
      intro offset hnone
      rw [pinLookupGo, pinScanChip_spec] at hnone ⊢
      by_cases h : offset ≤ pin ∧ pin < offset + c.lineNames.length
      · rw [if_pos h] at hnone
        simp at hnone
      · rw [if_neg h] at hnone ⊢
        simp only at hnone ⊢
        rw [pairTrace]
        simp only [List.cons.injEq, true_and]
        exact ih (offset + c.lineNames.length) hnone

theorem pinLookupGo_trace_some (pin : Nat) :
    ∀ (cs : List Chip) (offset : Nat) (d : String) (o : Nat),
    (pinLookupGo pin offset cs).fst = some (d, o) →
    ∃ pre c post, cs = pre ++ c :: post ∧ c.devname = d ∧
      (pinLookupGo pin offset cs).snd = pairTrace pre ++ [FdOp.opn d] := by
  intro cs
  induction cs with
  | nil => intro offset d o h; simp [pinLookupGo] at h
  | cons c rest ih =>
      intro offset d o hsome
      rw [pinLookupGo, pinScanChip_spec] at hsome ⊢
      by_cases h : offset ≤ pin ∧ pin < offset + c.lineNames.length
      · rw [if_pos h] at hsome ⊢
        simp only [Option.some.injEq, Prod.mk.injEq] at hsome
        refine ⟨[], c, rest, rfl, hsome.1, ?_⟩
        simp [pairTrace, hsome.1]
      · rw [if_neg h] at hsome ⊢
        simp only at hsome ⊢
        obtain ⟨pre, c2, post, hcs, hdev, htr⟩ :=
          ih (offset + c.lineNames.length) d o hsome
        refine ⟨c :: pre, c2, post, by simp [hcs], hdev, ?_⟩
        rw [pairTrace]
        simp only [List.cons_append, List.cons.injEq, true_and]
        exact htr

theorem nameLookupGo_trace_none (name : PyVal) :
    ∀ (cs : List Chip) (offset : Nat), (nameLookupGo name offset cs).fst = none →
    (nameLookupGo name offset cs).snd = pairTrace cs := by
  intro cs
  induction cs with
  | nil => intro offset _; rfl
  | cons c rest ih =>
      intro offset hnone
      rw [nameLookupGo, nameScanChip_spec] at hnone ⊢
      cases hfi : firstIdx (fun ln => pyEq (PyVal.pybytes ln) name) c.lineNames with
      | some i => rw [hfi] at hnone; simp at hnone
      | none =>
          rw [hfi] at hnone
          simp only at hnone ⊢
          rw [pairTrace]
          simp only [List.cons.injEq, true_and]
          exact ih (offset + c.lineNames.length) hnone

theorem nameLookupGo_trace_some (name : PyVal) :
    ∀ (cs : List Chip) (offset : Nat) (p : Nat),
    (nameLookupGo name offset cs).fst = some p →
    ∃ pre c post, cs = pre ++ c :: post ∧
      (nameLookupGo name offset cs).snd = pairTrace pre ++ [FdOp.opn c.devname] := by
  intro cs
  induction cs with
  | nil => intro offset p h; simp [nameLookupGo] at h
  | cons c rest ih =>
      intro offset p hsome
      rw [nameLookupGo, nameScanChip_spec] at hsome ⊢
      cases hfi : firstIdx (fun ln => pyEq (PyVal.pybytes ln) name) c.lineNames with
      | some i =>
          exact ⟨[], c, rest, rfl, by simp [pairTrace]⟩
      | none =>
          rw [hfi] at hsome
          simp only at hsome ⊢
          obtain ⟨pre, c2, post, hcs, htr⟩ := ih (offset + c.lineNames.length) p hsome
          refine ⟨c :: pre, c2, post, by simp [hcs], ?_⟩
          rw [pairTrace]
          simp only [List.cons_append, List.cons.injEq, true_and]
          exact htr

theorem enumerateGo_snd : ∀ (cs : List Chip) (pin : Nat),
    (enumerateGo pin cs).snd = pairTrace cs := by
  intro cs
  induction cs with
  | nil => intro pin; rfl
  | cons c rest ih =>
      intro pin
      rw [enumerateGo, pairTrace]
      simp only [List.cons.injEq, true_and]
      exact ih (pin + c.lineNames.length)

theorem enumScanChip_length : ∀ (n pin : Nat), (enumScanChip pin n).length = n := by
  intro n
  induction n with
  | zero => intro pin; rfl
  | succ r ih => intro pin; simp [enumScanChip, ih]

theorem enumerateGo_fst_length : ∀ (cs : List Chip) (pin : Nat),
    (enumerateGo pin cs).fst.length = totalLines cs := by
  intro cs
  induction cs with
  | nil => intro pin; rfl
  | cons c rest ih =>
      intro pin
      rw [enumerateGo]
      simp only [List.length_append, enumScanChip_length, ih, totalLines, List.map_cons,
        List.sum_cons]

theorem insertChip_perm (c : Chip) : ∀ l : List Chip, List.Perm (insertChip c l) (c :: l) := by
  intro l
  induction l with
  | nil => exact List.Perm.refl _
  | cons d rest ih =>
      rw [insertChip]
      by_cases h : strLt c.devname d.devname = true
      · rw [if_pos h]
      · rw [if_neg h]
        exact (ih.cons d).trans (List.Perm.swap c d rest)

theorem sortChips_perm : ∀ cs : List Chip, List.Perm (sortChips cs) cs := by
  intro cs
  induction cs with
  | nil => exact List.Perm.refl _
  | cons c rest ih => exact (insertChip_perm c (sortChips rest)).trans (ih.cons c)

theorem lineInfoName_eq_of_mem (ws : List Chip) (hnd : (ws.map Chip.devname).Nodup)
    (c : Chip) (hc : c ∈ ws) (o : Nat) :
    lineInfoName ws c.devname o = c.lineNames.getD o "" := by
  unfold lineInfoName
  cases hf : ws.find? (fun ch => ch.devname == c.devname) with
  | none =>
      exfalso
      have := List.find?_eq_none.mp hf c hc
      simp at this
  | some c2 =>
      have h1 : c2 ∈ ws := List.mem_of_find?_eq_some hf
      have h2 := List.find?_some hf
      simp only [beq_iff_eq] at h2
      have h3 : c2 = c := List.inj_on_of_nodup_map hnd h1 hc h2
      rw [h3]

theorem getD_append_lt (xs ys : List String) (i : Nat) (h : i < xs.length) :
    (xs ++ ys).getD i "" = xs.getD i "" := by
  rw [List.getD_eq_getElem?_getD, List.getD_eq_getElem?_getD, List.getElem?_append, if_pos h]

theorem getD_append_ge (xs ys : List String) (i : Nat) (h : ¬ i < xs.length) :
    (xs ++ ys).getD i "" = ys.getD (i - xs.length) "" := by
  rw [List.getD_eq_getElem?_getD, List.getD_eq_getElem?_getD, List.getElem?_append, if_neg h]

theorem flatLines_getElem : ∀ (ws : List Chip) (i : Nat) (d : String) (o : Nat),
    (flatLines ws)[i]? = some (d, o) →
    ∃ c ∈ ws, c.devname = d ∧ o < c.lineNames.length ∧
      (enumNames ws).getD i "" = c.lineNames.getD o "" := by
  intro ws
  induction ws with
  | nil => intro i d o h; simp [flatLines] at h
  | cons c rest ih =>
      intro i d o h
      rw [flatLines, List.getElem?_append] at h
      by_cases hi : i < ((List.range c.lineNames.length).map (fun j => (c.devname, j))).length
      · rw [if_pos hi] at h
        have hi2 : i < c.lineNames.length := by simpa using hi
        rw [List.getElem?_map, List.getElem?_range hi2] at h
        simp only [Option.map_some', Option.some.injEq, Prod.mk.injEq] at h
        refine ⟨c, List.mem_cons_self c rest, h.1, by omega, ?_⟩
        rw [enumNames, getD_append_lt _ _ _ hi2]
        rw [← h.2]
      · rw [if_neg hi] at h
        simp only [List.length_map, List.length_range] at hi h
        obtain ⟨c2, hc2, hdev, ho, hname⟩ := ih (i - c.lineNames.length) d o h
        refine ⟨c2, List.mem_cons_of_mem c hc2, hdev, ho, ?_⟩
        rw [enumNames, getD_append_ge _ _ _ hi]
        exact hname

theorem pinToName_fst (pin : Nat) (cs : List Chip)
    (hnd : (cs.map Chip.devname).Nodup)
    (hp : pin < totalLines (sortChips cs)) :
    (pinToName pin cs).fst =
      some (PyVal.pybytes ((enumNames (sortChips cs)).getD pin "")) := by
  have hlen : pin < (flatLines (sortChips cs)).length := by
    rw [flatLines_length]; exact hp
  have hsome : (flatLines (sortChips cs))[pin]? =
      some ((flatLines (sortChips cs))[pin]) := List.getElem?_eq_getElem hlen
  cases hpair : (flatLines (sortChips cs))[pin] with
  | mk d o =>
      rw [hpair] at hsome
      have hpl : (pinLookup pin cs).fst = some (d, o) := by
        rw [pinLookup_fst, hsome]
      obtain ⟨c, hcmem, hdev, ho, hname⟩ := flatLines_getElem (sortChips cs) pin d o hsome
      unfold pinToName
      cases hq : pinLookup pin cs with
      | mk res tr =>
          rw [hq] at hpl
          have hres : res = some (d, o) := hpl
          subst hres
          show some (PyVal.pybytes (lineInfoName cs d o)) =
            some (PyVal.pybytes ((enumNames (sortChips cs)).getD pin ""))
          have hc2 : c ∈ cs := ((sortChips_perm cs).mem_iff).mp hcmem
          have hli := lineInfoName_eq_of_mem cs hnd c hc2 o
          rw [hname, ← hdev, hli]

theorem firstIdx_some_mem (p : String → Bool) :
    ∀ (l : List String) (i : Nat), firstIdx p l = some i → ∃ x ∈ l, p x = true := by
  intro l
  induction l with
  | nil => intro i h; simp [firstIdx] at h
  | cons a rest ih =>
      intro i h
      rw [firstIdx] at h
      by_cases ha : p a
      · exact ⟨a, List.mem_cons_self a rest, ha⟩
      · rw [if_neg (by simp [ha])] at h
        cases hr : firstIdx p rest with
        | none => rw [hr] at h; simp at h
        | some j =>
            obtain ⟨x, hx, hpx⟩ := ih j hr
            exact ⟨x, List.mem_cons_of_mem a hx, hpx⟩

theorem firstIdx_first (p : String → Bool) :
    ∀ (l : List String) (i : Nat), i < l.length →
    (∀ j, j < i → p (l.getD j "") = false) →
    p (l.getD i "") = true → firstIdx p l = some i := by
  intro l
  induction l with
  | nil => intro i h; simp at h
  | cons a rest ih =>
      intro i hi hprev hcur
      cases i with
      | zero =>
          rw [firstIdx, if_pos]
          simpa using hcur
      | succ k =>
          have ha : p a = false := by simpa using hprev 0 (Nat.succ_pos k)
          rw [firstIdx, if_neg (by simp [ha])]
          rw [ih k (by simpa using hi)
            (fun j hj => by simpa using hprev (j + 1) (by omega))
            (by simpa using hcur)]
          rfl

theorem openRetryGo_spec (outcomes : Nat → OpenOutcome) :
    ∀ (m retries : Nat), retries + m = 20 →
    (retries + 1 ≤ (openRetryGo outcomes retries).2) ∧
    ((openRetryGo outcomes retries).2 ≤ 21) ∧
    (∀ k, retries + 1 ≤ k → k < (openRetryGo outcomes retries).2 →
      outcomes k = OpenOutcome.err 13) ∧
    (∀ e, (openRetryGo outcomes retries).1 = Except.error e →
      outcomes ((openRetryGo outcomes retries).2) = OpenOutcome.err e) ∧
    (∀ fd, (openRetryGo outcomes retries).1 = Except.ok fd →
      outcomes ((openRetryGo outcomes retries).2) = OpenOutcome.ok fd) := by
  intro m
  induction m with
  | zero =>
      intro retries hm
      rw [openRetryGo]
      cases ho : outcomes (retries + 1) with
      | ok fd =>
          dsimp only
          refine ⟨le_refl _, by omega, ?_, ?_, ?_⟩
          · intro k h1 h2; omega
          · intro e he; simp at he
          · intro fd2 hfd; simp at hfd; rw [ho, hfd]
      | err e =>
          dsimp only
          rw [dif_pos (by omega)]
          refine ⟨le_refl _, by omega, ?_, ?_, ?_⟩
          · intro k h1 h2; simp at h1 h2; omega
          · intro e2 he; simp at he; rw [ho, he]
          · intro fd hfd; simp at hfd
  | succ m2 ih =>
      intro retries hm
      rw [openRetryGo]
      cases ho : outcomes (retries + 1) with
      | ok fd =>
          dsimp only
          refine ⟨le_refl _, by omega, ?_, ?_, ?_⟩
          · intro k h1 h2; omega
          · intro e he; simp at he
          · intro fd2 hfd; simp at hfd; rw [ho, hfd]
      | err e =>
          dsimp only
          by_cases h : e ≠ 13 ∨ retries + 1 > 20
          · rw [dif_pos h]
            refine ⟨le_refl _, by omega, ?_, ?_, ?_⟩
            · intro k h1 h2; simp at h1 h2; omega
            · intro e2 he; simp at he; rw [ho, he]
            · intro fd hfd; simp at hfd
          · rw [dif_neg h]
            push_neg at h
            obtain ⟨he13, _⟩ := h
            subst he13
            obtain ⟨ih1, ih2, ih3, ih4, ih5⟩ := ih (retries + 1) (by omega)
            refine ⟨by omega, ih2, ?_, ih4, ih5⟩
            intro k h1 h2
            by_cases hk : k = retries + 1
            · rw [hk]; exact ho
            · exact ih3 k (by omega) h2

theorem enumNames_length : ∀ cs : List Chip, (enumNames cs).length = totalLines cs := by
  intro cs
  induction cs with
  | nil => rfl
  | cons c rest ih => simp [enumNames, totalLines, List.length_append, ih] at *

theorem totalLines_sortChips (cs : List Chip) : totalLines (sortChips cs) = totalLines cs :=
  List.Perm.sum_eq ((sortChips_perm cs).map (fun c => c.lineNames.length))

theorem openRetryGo_last_not13 (outcomes : Nat → OpenOutcome) :
    ∀ (m retries : Nat), retries + m = 20 →
    (openRetryGo outcomes retries).2 ≤ 20 →
    outcomes ((openRetryGo outcomes retries).2) ≠ OpenOutcome.err 13 := by
  intro m
  induction m with
  | zero =>
      intro retries hm
      rw [openRetryGo]
      cases ho : outcomes (retries + 1) with
      | ok fd =>
          dsimp only
          intro hle
          exact absurd hle (by omega)
      | err e =>
          dsimp only
          rw [dif_pos (by omega)]
          intro hle
          exact absurd hle (by omega)
  | succ m2 ih =>
      intro retries hm
      rw [openRetryGo]
      cases ho : outcomes (retries + 1) with
      | ok fd =>
          dsimp only
          intro _ hc
          rw [ho] at hc
          exact OpenOutcome.noConfusion hc
      | err e =>
          dsimp only
          by_cases h : e ≠ 13 ∨ retries + 1 > 20
          · rw [dif_pos h]
            intro hle hc
            rw [ho] at hc
            have he : e = 13 := by injection hc
            omega
          · rw [dif_neg h]
            exact ih (retries + 1) (by omega)

end Mpio

/-- C1 (corrected at a concrete input): the claim that once `stop()`
returns no further callback invocation ever occurs is false —
`AsyncPoll.stop` only clears the run flag and does not join, so in the
schedule where the thread is between its flag check and the callback when
`stop()` returns, one callback is still invoked after `stopReturned`:
start-then-immediate-stop yields one invocation, not zero. -/
theorem C1_counterexample :
    Mio.notifExec Mio.raceSched = [Mio.Ev.stopReturned, Mio.Ev.callbackInvoked] ∧
    Mio.cbAfterStop (Mio.notifExec Mio.raceSched) = true ∧
    Mio.cbCount (Mio.notifExec Mio.raceSched) = 1 := by decide

/-- C1 (amended): `stop()` clears the run flag, returns immediately (its
whole effect is one flag write — no join), and is idempotent; once it has
returned (from any state past the thread's initial flag write), at most
one further callback invocation can occur, from the poll iteration
already in flight. -/
theorem C1_stop_semantics (s : Mio.NotifState) (sched : List Mio.Act)
    (h : s.pc ≠ Mio.ThreadPC.atSetRunning) :
    (Mio.stopStep s).1 = { s with running := false } ∧
    (Mio.stopStep s).2 = [Mio.Ev.stopReturned] ∧
    (Mio.stopStep (Mio.stopStep s).1).1 = (Mio.stopStep s).1 ∧
    Mio.cbCount (Mio.notifExecFrom (Mio.stopStep s).1 sched) ≤ 1 := by
  refine ⟨rfl, rfl, rfl, ?_⟩
  have h2 := Mio.cbCount_le_potential sched ⟨false, s.pc⟩ rfl h
  have h3 : (Mio.stopStep s).1 = ⟨false, s.pc⟩ := rfl
  rw [h3]
  exact le_trans h2 (by cases hp : s.pc <;> simp [Mio.cbPotential, hp])

/-- Witness for C1_stop_semantics at a concrete state and schedule. -/
theorem C1_stop_semantics_witness :
    (⟨true, Mio.ThreadPC.atCallback⟩ : Mio.NotifState).pc ≠ Mio.ThreadPC.atSetRunning ∧
    Mio.cbCount (Mio.notifExecFrom
      (Mio.stopStep ⟨true, Mio.ThreadPC.atCallback⟩).1 [Mio.Act.threadStep none]) ≤ 1 :=
  ⟨by decide,
   (C1_stop_semantics ⟨true, Mio.ThreadPC.atCallback⟩ [Mio.Act.threadStep none]
     (by decide)).2.2.2⟩

/-- C2 (corrected at a concrete input): the claim that the loop invokes
`callback(result)` on every non-timeout poll result is false — the code
invokes `self.callback()` (no argument) and only when the result is
truthy, so the non-timeout result `False` (edge detected, line read back
low) invokes nothing. -/
theorem C2_counterexample :
    Mio.runIterationCalls (some false) = [] ∧
    Mio.runIterationCallsClaimed (some false) = [Mio.CbCall.withArg false] ∧
    Mio.runIterationCalls (some false) ≠ Mio.runIterationCallsClaimed (some false) := by
  decide

/-- C2 (amended): across any finite run of the `AsyncPoll.run` loop, the
callback is invoked, with no argument, exactly once per truthy poll
result (an edge whose read-back value is `True`); timeouts and `False`
read-backs invoke nothing and the loop continues. -/
theorem C2_run_invokes_on_truthy (rs : List (Option Bool)) :
    Mio.runLoopCalls rs = (rs.filter Mio.truthy).map (fun _ => Mio.CbCall.noArg) := by
  induction rs with
  | nil => rfl
  | cons r rest ih =>
      rw [show Mio.runLoopCalls (r :: rest) =
        Mio.runIterationCalls r ++ Mio.runLoopCalls rest from rfl]
      rw [List.filter_cons, ih]
      by_cases h : Mio.truthy r
      · rw [Mio.runIterationCalls, if_pos h, if_pos h]
        rfl
      · rw [Mio.runIterationCalls, if_neg h, if_neg h]
        rfl

/-- C3 (corrected at a concrete input): the claim that the output handle
is acquired with its default value equal to the boolean being set is
false — `set(True)` fills `default_values[0] = 0` in the handle request
(the line is driven low at acquisition), and only the subsequent
set-values call writes 1. -/
theorem C3_counterexample :
    Mpio.set ⟨some 3, "out", 5⟩ (Mpio.PyScalar.pybool true) =
      (Except.ok (),
       [Mpio.GpioEv.acquireHandle ⟨5, Mpio.REQUEST_OUTPUT, 0, "MPIO", 1⟩,
        Mpio.GpioEv.setValues 1, Mpio.GpioEv.closeFd]) ∧
    (⟨5, Mpio.REQUEST_OUTPUT, 0, "MPIO", 1⟩ : Mpio.HandleReq).defaultValue0 = 0 ∧
    (0 : Nat) ≠ 1 :=
  ⟨rfl, rfl, by decide⟩

/-- C3 (amended): `set(value)` on an open output-mode handle acquires the
single-line output handle with default value 0 (not the boolean being
set), then always writes `int(bool(value))` via the set-values call, and
the handle fd is released before `set` returns. -/
theorem C3_set_behavior (st : Mpio.GPIOState) (f : Nat) (value : Mpio.PyScalar)
    (hmode : st.mode = "out") (hfd : st.fd = some f)
    (hv : Mpio.isBoolOrInt value = true) :
    Mpio.set st value =
      (Except.ok (),
       [Mpio.GpioEv.acquireHandle ⟨st.lineOffset, Mpio.REQUEST_OUTPUT, 0, "MPIO", 1⟩,
        Mpio.GpioEv.setValues (if Mpio.pyBool value then 1 else 0),
        Mpio.GpioEv.closeFd]) := by
  unfold Mpio.set
  rw [hfd]
  simp [hv, hmode]

/-- Witness for C3_set_behavior at a concrete state and value. -/
theorem C3_set_behavior_witness :
    (⟨some 0, "out", 7⟩ : Mpio.GPIOState).mode = "out" ∧
    Mpio.set ⟨some 0, "out", 7⟩ (Mpio.PyScalar.pybool true) =
      (Except.ok (),
       [Mpio.GpioEv.acquireHandle
          ⟨(⟨some 0, "out", 7⟩ : Mpio.GPIOState).lineOffset,
           Mpio.REQUEST_OUTPUT, 0, "MPIO", 1⟩,
        Mpio.GpioEv.setValues
          (if Mpio.pyBool (Mpio.PyScalar.pybool true) then 1 else 0),
        Mpio.GpioEv.closeFd]) :=
  ⟨rfl, C3_set_behavior ⟨some 0, "out", 7⟩ 0 (Mpio.PyScalar.pybool true) rfl rfl rfl⟩

/-- C6 (corrected at a concrete input): after `close()`, `get()` on an
input-mode handle does fail, but with the `TypeError` Python raises for
the cleared (`None`) descriptor, not with a "use after close" error — no
such error kind exists in the code. -/
theorem C6_counterexample :
    (Mpio.close ⟨some 3, "in", 0⟩).fd = none ∧
    (Mpio.get (Mpio.close ⟨some 3, "in", 0⟩) false).1 =
      Except.error (Mpio.PyErr.typeError "an integer is required") ∧
    Mpio.isUseAfterClose (Mpio.PyErr.typeError "an integer is required") = false :=
  ⟨rfl, rfl, by decide⟩

/-- C6 (amended): after `close()` every `get`, `set`, or `poll` call
fails — no operation succeeds in the closed state — but the failure is a
wrong-mode/type/value error or the `TypeError` from the cleared
descriptor, never a dedicated "use after close" error. -/
theorem C6_closed_ops_fail (st : Mpio.GPIOState) (lineValue : Bool)
    (value : Mpio.PyScalar) (edge : String) (timeout : Int) (pending : List Nat)
    (h : st.fd = none) :
    (∃ e, (Mpio.get st lineValue).1 = Except.error e ∧
       Mpio.isUseAfterClose e = false) ∧
    (∃ e, (Mpio.set st value).1 = Except.error e ∧
       Mpio.isUseAfterClose e = false) ∧
    (∃ e, (Mpio.poll st edge timeout pending).1 =
       Mpio.PollRet.ret (Except.error e) ∧ Mpio.isUseAfterClose e = false) := by
  refine ⟨?_, ?_, ?_⟩
  · unfold Mpio.get
    by_cases hm : st.mode != "in"
    · rw [if_pos hm]
      exact ⟨_, rfl, by decide⟩
    · rw [if_neg hm, h]
      exact ⟨_, rfl, by decide⟩
  · unfold Mpio.set
    by_cases hv : !(Mpio.isBoolOrInt value)
    · rw [if_pos hv]
      exact ⟨_, rfl, by decide⟩
    · rw [if_neg hv]
      by_cases hm : st.mode != "out"
      · rw [if_pos hm]
        exact ⟨_, rfl, by decide⟩
      · rw [if_neg hm, h]
        exact ⟨_, rfl, by decide⟩
  · unfold Mpio.poll
    by_cases he : !(edge == "rising" || edge == "falling" || edge == "both")
    · rw [if_pos he]
      exact ⟨_, rfl, by decide⟩
    · rw [if_neg he, h]
      exact ⟨_, rfl, by decide⟩

/-- Witness for C6_closed_ops_fail on a freshly closed input-mode
handle. -/
theorem C6_closed_ops_fail_witness :
    (Mpio.close ⟨some 3, "in", 0⟩).fd = none ∧
    ((∃ e, (Mpio.get (Mpio.close ⟨some 3, "in", 0⟩) false).1 = Except.error e ∧
        Mpio.isUseAfterClose e = false) ∧
     (∃ e, (Mpio.set (Mpio.close ⟨some 3, "in", 0⟩) (Mpio.PyScalar.pybool true)).1 =
        Except.error e ∧ Mpio.isUseAfterClose e = false) ∧
     (∃ e, (Mpio.poll (Mpio.close ⟨some 3, "in", 0⟩) "rising" 0 []).1 =
        Mpio.PollRet.ret (Except.error e) ∧ Mpio.isUseAfterClose e = false)) :=
  ⟨rfl, C6_closed_ops_fail (Mpio.close ⟨some 3, "in", 0⟩) false
    (Mpio.PyScalar.pybool true) "rising" 0 [] rfl⟩

/-- C7 (confirmed): for an open handle and a valid edge filter, `poll`
with timeout zero and no pending event returns "no event" (`None`)
without waiting; with a negative timeout and no event it blocks (never
returns a timeout); on wakeup it reads exactly one event record and
classifies id 0x01 as rising and 0x02 as falling; and the event fd is
closed before `poll` returns on every returning path. -/
theorem C7_poll_behavior (st : Mpio.GPIOState) (f : Nat) (edge : String)
    (hfd : st.fd = some f)
    (hedge : edge = "rising" ∨ edge = "falling" ∨ edge = "both") :
    (Mpio.poll st edge 0 [] =
      (Mpio.PollRet.ret (Except.ok none),
       [Mpio.GpioEv.acquireEvent ⟨st.lineOffset, 0, Mpio.eventflagsFor edge, "MPIO"⟩,
        Mpio.GpioEv.waited (Mpio.WaitOutcome.timedOut false), Mpio.GpioEv.closeFd])) ∧
    (∀ timeout : Int, timeout < 0 →
      (Mpio.poll st edge timeout []).1 = Mpio.PollRet.blocks) ∧
    (∀ (timeout : Int) (id : Nat) (rest : List Nat),
      Mpio.poll st edge timeout (id :: rest) =
        (Mpio.PollRet.ret (Except.ok (Mpio.classifyEvent id)),
         [Mpio.GpioEv.acquireEvent ⟨st.lineOffset, 0, Mpio.eventflagsFor edge, "MPIO"⟩,
          Mpio.GpioEv.waited Mpio.WaitOutcome.ready, Mpio.GpioEv.readEvent id,
          Mpio.GpioEv.closeFd])) ∧
    (Mpio.classifyEvent 1 = some "rising" ∧ Mpio.classifyEvent 2 = some "falling") ∧
    (∀ (timeout : Int) (pending : List Nat) (r : Except Mpio.PyErr (Option String)),
      (Mpio.poll st edge timeout pending).1 = Mpio.PollRet.ret r →
      Mpio.GpioEv.closeFd ∈ (Mpio.poll st edge timeout pending).2) := by
  have hval : (!(edge == "rising" || edge == "falling" || edge == "both")) = false := by
    rcases hedge with h | h | h <;> simp [h]
  refine ⟨?_, ?_, ?_, ⟨rfl, rfl⟩, ?_⟩
  · unfold Mpio.poll
    rw [hfd]
    simp only [hval, Bool.false_eq_true, if_false]
    rfl
  · intro timeout ht
    unfold Mpio.poll
    rw [hfd]
    simp only [hval, Bool.false_eq_true, if_false]
    have hw : Mpio.epollWait timeout [] = Mpio.WaitOutcome.blocksForever := by
      unfold Mpio.epollWait
      rw [if_neg (by simp), if_neg (by simp; omega), if_pos ht]
    rw [hw]
  · intro timeout id rest
    unfold Mpio.poll
    rw [hfd]
    simp only [hval, Bool.false_eq_true, if_false]
    have hw : Mpio.epollWait timeout (id :: rest) = Mpio.WaitOutcome.ready := by
      unfold Mpio.epollWait
      rw [if_pos (by simp)]
    rw [hw]
  · intro timeout pending r hr
    unfold Mpio.poll at hr ⊢
    rw [hfd] at hr ⊢
    simp only [hval, Bool.false_eq_true, if_false] at hr ⊢
    cases hw : Mpio.epollWait timeout pending with
    | ready =>
        cases pending with
        | nil => simp
        | cons id rest => simp
    | timedOut w => simp
    | blocksForever =>
        rw [hw] at hr
        exact absurd hr (fun hh => Mpio.PollRet.noConfusion hh)

/-- Witness for C7_poll_behavior: non-blocking timeout-zero poll on an
open handle. -/
theorem C7_poll_behavior_witness :
    (⟨some 4, "in", 2⟩ : Mpio.GPIOState).fd = some 4 ∧
    Mpio.poll ⟨some 4, "in", 2⟩ "rising" 0 [] =
      (Mpio.PollRet.ret (Except.ok none),
       [Mpio.GpioEv.acquireEvent
          ⟨(⟨some 4, "in", 2⟩ : Mpio.GPIOState).lineOffset, 0,
           Mpio.eventflagsFor "rising", "MPIO"⟩,
        Mpio.GpioEv.waited (Mpio.WaitOutcome.timedOut false), Mpio.GpioEv.closeFd]) :=
  ⟨rfl, (C7_poll_behavior ⟨some 4, "in", 2⟩ 4 "rising" rfl (Or.inl rfl)).1⟩

/-- C4 (confirmed): with controller "A" (32 lines) before "B" (16 lines),
`_pin_lookup` maps 31 to (A, 31), 32 to (B, 0), and 48 to not-found; in
general every pin at or beyond the total line count is not found, and
every other pin resolves to the pair at its position in the concatenated,
controller-name-sorted, offset-ordered enumeration. -/
theorem C4_pin_resolution :
    (Mpio.pinLookup 31 Mpio.sysAB).1 = some ("A", 31) ∧
    (Mpio.pinLookup 32 Mpio.sysAB).1 = some ("B", 0) ∧
    (Mpio.pinLookup 48 Mpio.sysAB).1 = none ∧
    (∀ (cs : List Mpio.Chip) (pin : Nat), Mpio.totalLines cs ≤ pin →
      (Mpio.pinLookup pin cs).1 = none) ∧
    (∀ (cs : List Mpio.Chip) (pin : Nat),
      (Mpio.pinLookup pin cs).1 = (Mpio.flatLines (Mpio.sortChips cs))[pin]?) := by
  refine ⟨by decide, by decide, by decide, ?_, ?_⟩
  · intro cs pin h
    exact Mpio.pinLookup_fst_none pin cs (by rw [Mpio.totalLines_sortChips]; exact h)
  · intro cs pin
    exact Mpio.pinLookup_fst pin cs

/-- Witness for C4_pin_resolution: pin 48 exceeds the 48-line total of the
scenario system. -/
theorem C4_pin_resolution_witness :
    Mpio.totalLines Mpio.sysAB ≤ 48 ∧ (Mpio.pinLookup 48 Mpio.sysAB).1 = none :=
  ⟨by decide, C4_pin_resolution.2.2.2.1 Mpio.sysAB 48 (by decide)⟩

/-- C9 (confirmed): a successful `_pin_lookup` or `_name_lookup` returns
from inside the controller walk without closing the matching controller's
read-only fd — the trace is open/close pairs for the controllers walked
before the match followed by a lone open, so one more open than closes —
while `enumerate` opens and closes every controller fd. -/
theorem C9_lookup_fd_traces :
    (∀ (cs : List Mpio.Chip) (pin : Nat) (d : String) (o : Nat),
      (Mpio.pinLookup pin cs).1 = some (d, o) →
      ∃ pre c post, Mpio.sortChips cs = pre ++ c :: post ∧ c.devname = d ∧
        (Mpio.pinLookup pin cs).2 = Mpio.pairTrace pre ++ [Mpio.FdOp.opn d] ∧
        Mpio.countOpn (Mpio.pinLookup pin cs).2 =
          Mpio.countCls (Mpio.pinLookup pin cs).2 + 1) ∧
    (∀ (cs : List Mpio.Chip) (n : Mpio.PyVal) (p : Nat),
      (Mpio.nameLookup (some n) cs).1 = some p →
      ∃ pre c post, Mpio.sortChips cs = pre ++ c :: post ∧
        (Mpio.nameLookup (some n) cs).2 =
          Mpio.pairTrace pre ++ [Mpio.FdOp.opn c.devname] ∧
        Mpio.countOpn (Mpio.nameLookup (some n) cs).2 =
          Mpio.countCls (Mpio.nameLookup (some n) cs).2 + 1) ∧
    (∀ cs : List Mpio.Chip,
      (Mpio.enumerate cs).2 = Mpio.pairTrace (Mpio.sortChips cs) ∧
      Mpio.countOpn (Mpio.enumerate cs).2 = Mpio.countCls (Mpio.enumerate cs).2) := by
  refine ⟨?_, ?_, ?_⟩
  · intro cs pin d o h
    obtain ⟨pre, c, post, hcs, hdev, htr⟩ :=
      Mpio.pinLookupGo_trace_some pin (Mpio.sortChips cs) 0 d o h
    refine ⟨pre, c, post, hcs, hdev, htr, ?_⟩
    have ho : Mpio.countOpn [Mpio.FdOp.opn d] = 1 := rfl
    have hc : Mpio.countCls [Mpio.FdOp.opn d] = 0 := rfl
    rw [show (Mpio.pinLookup pin cs).2 =
      (Mpio.pinLookupGo pin 0 (Mpio.sortChips cs)).2 from rfl, htr,
      Mpio.countOpn_append, Mpio.countCls_append,
      Mpio.countOpn_pairTrace, Mpio.countCls_pairTrace, ho, hc]
  · intro cs n p h
    obtain ⟨pre, c, post, hcs, htr⟩ :=
      Mpio.nameLookupGo_trace_some n (Mpio.sortChips cs) 0 p h
    refine ⟨pre, c, post, hcs, htr, ?_⟩
    have ho : Mpio.countOpn [Mpio.FdOp.opn c.devname] = 1 := rfl
    have hc : Mpio.countCls [Mpio.FdOp.opn c.devname] = 0 := rfl
    rw [show (Mpio.nameLookup (some n) cs).2 =
      (Mpio.nameLookupGo n 0 (Mpio.sortChips cs)).2 from rfl, htr,
      Mpio.countOpn_append, Mpio.countCls_append,
      Mpio.countOpn_pairTrace, Mpio.countCls_pairTrace, ho, hc]
  · intro cs
    have htr : (Mpio.enumerate cs).2 = Mpio.pairTrace (Mpio.sortChips cs) :=
      Mpio.enumerateGo_snd (Mpio.sortChips cs) 0
    refine ⟨htr, ?_⟩
    rw [htr, Mpio.countOpn_pairTrace, Mpio.countCls_pairTrace]

/-- Witness for C9_lookup_fd_traces: a successful pin lookup leaves the
matching controller fd open. -/
theorem C9_lookup_fd_traces_witness :
    (Mpio.pinLookup 1 Mpio.twoLineSys).1 = some ("gpiochip0", 1) ∧
    (∃ pre c post, Mpio.sortChips Mpio.twoLineSys = pre ++ c :: post ∧
      c.devname = "gpiochip0" ∧
      (Mpio.pinLookup 1 Mpio.twoLineSys).2 =
        Mpio.pairTrace pre ++ [Mpio.FdOp.opn "gpiochip0"] ∧
      Mpio.countOpn (Mpio.pinLookup 1 Mpio.twoLineSys).2 =
        Mpio.countCls (Mpio.pinLookup 1 Mpio.twoLineSys).2 + 1) :=
  ⟨by decide, C9_lookup_fd_traces.1 Mpio.twoLineSys 1 "gpiochip0" 1 (by decide)⟩

/-- C10 (confirmed): `_name_lookup` compares the kernel's `bytes` line
name against the caller's value, so a `str` never matches and a `str`
name lookup returns `None` on every system; constructing a GPIO from a
`str` pin name therefore always fails with "Unknown pin name"; and a
lookup can only succeed when the name is supplied as `bytes`. -/
theorem C10_str_name_never_matches :
    (∀ (s : String) (cs : List Mpio.Chip),
      (Mpio.nameLookup (some (Mpio.PyVal.pystr s)) cs).1 = none) ∧
    (∀ (s : String) (mode : String) (cs : List Mpio.Chip),
      mode = "in" ∨ mode = "out" →
      Mpio.initResolve (Mpio.PinArg.str s) mode cs =
        Except.error (Mpio.PyErr.runtimeError "Unknown pin name")) ∧
    (∀ (n : Mpio.PyVal) (cs : List Mpio.Chip) (p : Nat),
      (Mpio.nameLookup (some n) cs).1 = some p →
      ∃ b, n = Mpio.PyVal.pybytes b) := by
  have key : ∀ (s : String) (cs : List Mpio.Chip),
      (Mpio.nameLookup (some (Mpio.PyVal.pystr s)) cs).1 = none := by
    intro s cs
    show (Mpio.nameLookupGo (Mpio.PyVal.pystr s) 0 (Mpio.sortChips cs)).1 = none
    rw [Mpio.nameLookupGo_fst]
    cases hfi : Mpio.firstIdx
        (fun ln => Mpio.pyEq (Mpio.PyVal.pybytes ln) (Mpio.PyVal.pystr s))
        (Mpio.enumNames (Mpio.sortChips cs)) with
    | none => rfl
    | some i =>
        obtain ⟨x, _, hx⟩ := Mpio.firstIdx_some_mem _ _ i hfi
        exact absurd hx (by simp [Mpio.pyEq])
  refine ⟨key, ?_, ?_⟩
  · intro s mode cs hmode
    unfold Mpio.initResolve
    dsimp only
    rw [key s cs]
    rcases hmode with h | h <;> subst h <;> rfl
  · intro n cs p h
    have h3 : (Mpio.nameLookupGo n 0 (Mpio.sortChips cs)).1 = some p := h
    rw [Mpio.nameLookupGo_fst] at h3
    cases hfi : Mpio.firstIdx (fun ln => Mpio.pyEq (Mpio.PyVal.pybytes ln) n)
        (Mpio.enumNames (Mpio.sortChips cs)) with
    | none => rw [hfi] at h3; simp at h3
    | some i =>
        obtain ⟨x, _, hx⟩ := Mpio.firstIdx_some_mem _ _ i hfi
        cases n with
        | pystr t => exact absurd hx (by simp [Mpio.pyEq])
        | pybytes b => exact ⟨b, rfl⟩

/-- Witness for C10_str_name_never_matches: a `str` pin name fails
construction with "Unknown pin name". -/
theorem C10_str_name_never_matches_witness :
    ("in" = "in" ∨ "in" = "out") ∧
    Mpio.initResolve (Mpio.PinArg.str "x") "in" [] =
      Except.error (Mpio.PyErr.runtimeError "Unknown pin name") :=
  ⟨Or.inl rfl, C10_str_name_never_matches.2.1 "x" "in" [] (Or.inl rfl)⟩

/-- C5 (corrected at a concrete input): the round-trip claim fails when
two lines share a name — in a one-controller system whose two lines are
both named "x", pin 1 is valid, `pin_to_name(1)` is `b"x"`, but
`_name_lookup` returns the first index bearing that name, 0, not 1. -/
theorem C5_counterexample :
    1 < (Mpio.enumerate Mpio.dupSys).1.length ∧
    (Mpio.pinToName 1 Mpio.dupSys).1 = some (Mpio.PyVal.pybytes "x") ∧
    (Mpio.nameLookup ((Mpio.pinToName 1 Mpio.dupSys).1) Mpio.dupSys).1 = some 0 ∧
    (0 : Nat) ≠ 1 := by decide

/-- C5 (amended): for a valid pin `p` whose line name does not occur at
any smaller pin index (in particular whenever line names are distinct),
`_name_lookup(pin_to_name(p))` returns `p`; in general it returns the
least pin index bearing the name of `p`. -/
theorem C5_round_trip (cs : List Mpio.Chip) (p : Nat)
    (hnd : (cs.map Mpio.Chip.devname).Nodup)
    (hp : p < (Mpio.enumerate cs).1.length)
    (hfirst : ∀ q, q < p →
      (Mpio.enumNames (Mpio.sortChips cs)).getD q "" ≠
      (Mpio.enumNames (Mpio.sortChips cs)).getD p "") :
    (Mpio.nameLookup ((Mpio.pinToName p cs).1) cs).1 = some p := by
  have hp2 : p < Mpio.totalLines (Mpio.sortChips cs) := by
    have hlen : (Mpio.enumerate cs).1.length = Mpio.totalLines (Mpio.sortChips cs) :=
      Mpio.enumerateGo_fst_length (Mpio.sortChips cs) 0
    rw [hlen] at hp
    exact hp
  rw [Mpio.pinToName_fst p cs hnd hp2]
  show (Mpio.nameLookupGo
    (Mpio.PyVal.pybytes ((Mpio.enumNames (Mpio.sortChips cs)).getD p ""))
    0 (Mpio.sortChips cs)).1 = some p
  rw [Mpio.nameLookupGo_fst]
  have hfi : Mpio.firstIdx
      (fun ln => Mpio.pyEq (Mpio.PyVal.pybytes ln)
        (Mpio.PyVal.pybytes ((Mpio.enumNames (Mpio.sortChips cs)).getD p "")))
      (Mpio.enumNames (Mpio.sortChips cs)) = some p := by
    apply Mpio.firstIdx_first
    · rw [Mpio.enumNames_length]; exact hp2
    · intro j hj
      have hne := hfirst j hj
      show (((Mpio.enumNames (Mpio.sortChips cs)).getD j "") ==
        ((Mpio.enumNames (Mpio.sortChips cs)).getD p "")) = false
      exact beq_eq_false_iff_ne.mpr hne
    · show (((Mpio.enumNames (Mpio.sortChips cs)).getD p "") ==
        ((Mpio.enumNames (Mpio.sortChips cs)).getD p "")) = true
      exact beq_self_eq_true _
  rw [hfi]
  simp

/-- Witness for C5_round_trip on a system with two distinctly named
lines. -/
theorem C5_round_trip_witness :
    ((Mpio.twoLineSys.map Mpio.Chip.devname).Nodup ∧
     1 < (Mpio.enumerate Mpio.twoLineSys).1.length ∧
     (∀ q, q < 1 →
       (Mpio.enumNames (Mpio.sortChips Mpio.twoLineSys)).getD q "" ≠
       (Mpio.enumNames (Mpio.sortChips Mpio.twoLineSys)).getD 1 "")) ∧
    (Mpio.nameLookup ((Mpio.pinToName 1 Mpio.twoLineSys).1) Mpio.twoLineSys).1 =
      some 1 :=
  ⟨⟨by decide, by decide, by decide⟩,
   C5_round_trip Mpio.twoLineSys 1 (by decide) (by decide) (by decide)⟩

/-- C8 (confirmed): the constructor's device-node open loop retries only
permission-denied failures (errno 13), makes at most 21 attempts (the
`retries > 20` bound) before re-raising errno 13, and re-raises any other
errno immediately on the very attempt it occurs, with no further
attempt. -/
theorem C8_open_retry (outcomes : Nat → Mpio.OpenOutcome) :
    (1 ≤ (Mpio.openRetry outcomes).2 ∧ (Mpio.openRetry outcomes).2 ≤ 21) ∧
    (∀ k, 1 ≤ k → k < (Mpio.openRetry outcomes).2 →
      outcomes k = Mpio.OpenOutcome.err 13) ∧
    (∀ e, (Mpio.openRetry outcomes).1 = Except.error e →
      outcomes ((Mpio.openRetry outcomes).2) = Mpio.OpenOutcome.err e) ∧
    ((∀ k, outcomes k = Mpio.OpenOutcome.err 13) →
      Mpio.openRetry outcomes = (Except.error 13, 21)) ∧
    (∀ e, outcomes 1 = Mpio.OpenOutcome.err e → e ≠ 13 →
      Mpio.openRetry outcomes = (Except.error e, 1)) := by
  obtain ⟨h1, h2, h3, h4, h5⟩ := Mpio.openRetryGo_spec outcomes 20 0 rfl
  refine ⟨⟨h1, h2⟩, h3, h4, ?_, ?_⟩
  · intro hall
    cases hres : (Mpio.openRetryGo outcomes 0).1 with
    | ok fd =>
        have hok := h5 fd hres
        rw [hall] at hok
        exact absurd hok (fun hh => Mpio.OpenOutcome.noConfusion hh)
    | error e =>
        have he := h4 e hres
        have hen : e = 13 := by
          rw [hall] at he
          injection he with hh
          exact hh.symm
        have hn21 : (Mpio.openRetryGo outcomes 0).2 = 21 := by
          by_contra hne
          have hle : (Mpio.openRetryGo outcomes 0).2 ≤ 20 := by omega
          exact Mpio.openRetryGo_last_not13 outcomes 20 0 rfl hle (hall _)
        have hpair : Mpio.openRetry outcomes =
            ((Mpio.openRetryGo outcomes 0).1, (Mpio.openRetryGo outcomes 0).2) := rfl
        rw [hpair, hres, hen, hn21]
  · intro e h1e hne
    show Mpio.openRetryGo outcomes 0 = (Except.error e, 1)
    rw [Mpio.openRetryGo, Nat.zero_add, h1e]
    dsimp only
    rw [dif_pos (Or.inl hne)]

/-- Witness for C8_open_retry: a non-permission errno on the first
attempt is raised immediately with exactly one attempt made. -/
theorem C8_open_retry_witness :
    (fun _ : Nat => Mpio.OpenOutcome.err 2) 1 = Mpio.OpenOutcome.err 2 ∧
    Mpio.openRetry (fun _ => Mpio.OpenOutcome.err 2) = (Except.error 2, 1) :=
  ⟨rfl, (C8_open_retry (fun _ => Mpio.OpenOutcome.err 2)).2.2.2.2 2 rfl (by decide)⟩
